import Mathlib

/-!
Verification of the Complex.js library (src/complex.js) against its
natural-language specification.

The embedding models a JavaScript number as a real number together with the
IEEE-754 special values NaN, +Infinity and -Infinity; finite arithmetic is
modelled exactly (no rounding), while the propagation rules for the special
values follow the ECMAScript semantics.  A complex value is a pair of such
numbers.  Operations that can throw (the constructor check on NaN products,
division by zero) return an Except value carrying the two error kinds of the
library: InvalidParam (the string thrown by the argument parser) and
DivByZero (the string thrown by div and inverse).
-/

set_option maxHeartbeats 1000000

noncomputable section

open scoped Classical

/-- A JavaScript number: a finite real, an infinity, or NaN. -/
inductive JsNum where
  | fin : ℝ → JsNum
  | pinf : JsNum
  | ninf : JsNum
  | nan : JsNum

namespace JsNum

/-- Unary minus. -/
def jsNeg : JsNum → JsNum
  | fin x => fin (-x)
  | pinf => ninf
  | ninf => pinf
  | nan => nan

/-- Math.abs. -/
def jsAbs : JsNum → JsNum
  | fin x => fin |x|
  | pinf => pinf
  | ninf => pinf
  | nan => nan

/-- IEEE addition. -/
def jsAdd : JsNum → JsNum → JsNum
  | nan, _ => nan
  | _, nan => nan
  | fin x, fin y => fin (x + y)
  | fin _, pinf => pinf
  | fin _, ninf => ninf
  | pinf, fin _ => pinf
  | ninf, fin _ => ninf
  | pinf, pinf => pinf
  | ninf, ninf => ninf
  | pinf, ninf => nan
  | ninf, pinf => nan

/-- IEEE subtraction, as addition of the negation. -/
def jsSub (x y : JsNum) : JsNum := jsAdd x (jsNeg y)

/-- IEEE multiplication; an infinity times zero is NaN. -/
def jsMul : JsNum → JsNum → JsNum
  | nan, _ => nan
  | _, nan => nan
  | fin x, fin y => fin (x * y)
  | fin x, pinf => if x = 0 then nan else if 0 < x then pinf else ninf
  | fin x, ninf => if x = 0 then nan else if 0 < x then ninf else pinf
  | pinf, fin y => if y = 0 then nan else if 0 < y then pinf else ninf
  | ninf, fin y => if y = 0 then nan else if 0 < y then ninf else pinf
  | pinf, pinf => pinf
  | pinf, ninf => ninf
  | ninf, pinf => ninf
  | ninf, ninf => pinf

/-- IEEE division (signed zero not modelled: a zero divisor counts as +0). -/
def jsDiv : JsNum → JsNum → JsNum
  | nan, _ => nan
  | _, nan => nan
  | fin x, fin y =>
      if y = 0 then (if x = 0 then nan else if 0 < x then pinf else ninf)
      else fin (x / y)
  | pinf, fin y => if y < 0 then ninf else pinf
  | ninf, fin y => if y < 0 then pinf else ninf
  | fin _, pinf => fin 0
  | fin _, ninf => fin 0
  | _, _ => nan

/-- The comparison x less-or-equal y; any comparison with NaN is false. -/
def jsLeP : JsNum → JsNum → Prop
  | nan, _ => False
  | _, nan => False
  | fin x, fin y => x ≤ y
  | fin _, pinf => True
  | fin _, ninf => False
  | pinf, fin _ => False
  | ninf, fin _ => True
  | pinf, pinf => True
  | ninf, ninf => True
  | ninf, pinf => True
  | pinf, ninf => False

/-- The comparison x strictly-less y; any comparison with NaN is false. -/
def jsLtP : JsNum → JsNum → Prop
  | nan, _ => False
  | _, nan => False
  | fin x, fin y => x < y
  | fin _, pinf => True
  | fin _, ninf => False
  | pinf, fin _ => False
  | ninf, fin _ => True
  | pinf, pinf => False
  | ninf, ninf => False
  | ninf, pinf => True
  | pinf, ninf => False

/-- Math.sqrt: NaN on negative arguments. -/
def jsSqrt : JsNum → JsNum
  | fin x => if 0 ≤ x then fin (Real.sqrt x) else nan
  | pinf => pinf
  | ninf => nan
  | nan => nan

/-- Math.log: NaN on negative arguments, -Infinity at zero. -/
def jsLog : JsNum → JsNum
  | fin x => if 0 < x then fin (Real.log x) else if x = 0 then ninf else nan
  | pinf => pinf
  | ninf => nan
  | nan => nan

/-- Math.exp. -/
def jsExp : JsNum → JsNum
  | fin x => fin (Real.exp x)
  | pinf => pinf
  | ninf => fin 0
  | nan => nan

/-- Math.cos: NaN at the infinities. -/
def jsCos : JsNum → JsNum
  | fin x => fin (Real.cos x)
  | _ => nan

/-- Math.sin: NaN at the infinities. -/
def jsSin : JsNum → JsNum
  | fin x => fin (Real.sin x)
  | _ => nan

end JsNum

/-- Math.atan2 on finite arguments: the angle of the point (x, y), in
the half-open interval from -pi exclusive to pi inclusive; this is the
argument of the complex number x + y*i. -/
def atan2R (y x : ℝ) : ℝ := Complex.arg ⟨x, y⟩

namespace JsNum

/-- Math.atan2 on JavaScript numbers (signed zero not modelled). -/
def jsAtan2 : JsNum → JsNum → JsNum
  | nan, _ => nan
  | _, nan => nan
  | fin yv, fin xv => fin (atan2R yv xv)
  | pinf, fin _ => fin (Real.pi / 2)
  | ninf, fin _ => fin (-(Real.pi / 2))
  | fin _, pinf => fin 0
  | fin yv, ninf => if yv < 0 then fin (-Real.pi) else fin Real.pi
  | pinf, pinf => fin (Real.pi / 4)
  | pinf, ninf => fin (3 * Real.pi / 4)
  | ninf, pinf => fin (-(Real.pi / 4))
  | ninf, ninf => fin (-(3 * Real.pi / 4))

/-- Truncation toward zero, used by the JavaScript remainder operator. -/
def jsTrunc (t : ℝ) : ℝ := if 0 ≤ t then (⌊t⌋ : ℝ) else (⌈t⌉ : ℝ)

/-- The JavaScript % operator: remainder with the sign of the dividend. -/
def jsRem : JsNum → JsNum → JsNum
  | fin x, fin y => if y = 0 then nan else fin (x - y * jsTrunc (x / y))
  | fin x, pinf => fin x
  | fin x, ninf => fin x
  | _, _ => nan

/-- Math.pow on finite operands: real exponentiation, NaN for a negative
base with a non-integer exponent.  Non-finite operands never reach jsPow
in the theorems of this development and are mapped to NaN. -/
def jsPow : JsNum → JsNum → JsNum
  | fin bx, fin cx =>
      if 0 < bx then fin (bx ^ cx)
      else if bx = 0 then (if 0 < cx then fin 0 else if cx = 0 then fin 1 else pinf)
      else if ∃ n : ℤ, cx = (n : ℝ) then fin (bx ^ cx) else nan
  | _, _ => nan

end JsNum

open JsNum

/-- The two error kinds of the library: the string "Invalid Param" thrown
by the argument parser, and the string "DIV/0" thrown by div and inverse. -/
inductive Err where
  | invalidParam : Err
  | divByZero : Err
deriving DecidableEq

/-- A complex value: a pair of JavaScript numbers. -/
structure Cx where
  re : JsNum
  im : JsNum

/-- The two-argument constructor new Complex(a, b): parse stores the pair
and throws Invalid Param exactly when the product of the parts is NaN. -/
def mkComplex (a b : JsNum) : Except Err Cx :=
  if jsMul a b = JsNum.nan then .error .invalidParam else .ok ⟨a, b⟩

/-- Parsing a pre-built complex value as an operand: the object branch of
parse copies the two fields and applies the same NaN-product check. -/
def parseC (y : Cx) : Except Err Cx :=
  if jsMul y.re y.im = JsNum.nan then .error .invalidParam else .ok y

/-- The comparison epsilon of the library. -/
def EPSILON : JsNum := JsNum.fin 1e-16

/-- The constant Complex.I. -/
def Iconst : Cx := ⟨JsNum.fin 0, JsNum.fin 1⟩

/-- logsq2(a, b) = log(sqrt(a^2+b^2)) computed as in the source: raw zero
tests on a and b, the direct formula below 1000, and the atan2 identity
with the raw (not absolute) first argument as numerator otherwise. -/
def logsq2 (a b : JsNum) : JsNum :=
  if a = JsNum.fin 0 then jsLog (jsAbs b)
  else if b = JsNum.fin 0 then jsLog (jsAbs a)
  else if jsLtP (jsAbs a) (JsNum.fin 1000) ∧ jsLtP (jsAbs b) (JsNum.fin 1000) then
    jsMul (jsLog (jsAdd (jsMul a a) (jsMul b b))) (JsNum.fin 0.5)
  else jsLog (jsDiv a (jsCos (jsAtan2 b a)))

/-- The abs method: direct Pythagoras below 1000, otherwise the larger
magnitude times sqrt(1 + ratio^2) with the signed ratio of the raw fields. -/
def absC (x : Cx) : JsNum :=
  let a := jsAbs x.re
  let b := jsAbs x.im
  if jsLtP a (JsNum.fin 1000) ∧ jsLtP b (JsNum.fin 1000) then
    jsSqrt (jsAdd (jsMul a a) (jsMul b b))
  else if jsLtP a b then
    jsMul b (jsSqrt (jsAdd (JsNum.fin 1) (jsMul (jsDiv x.re x.im) (jsDiv x.re x.im))))
  else
    jsMul a (jsSqrt (jsAdd (JsNum.fin 1) (jsMul (jsDiv x.im x.re) (jsDiv x.im x.re))))

/-- The add method: parse the operand, add componentwise, reconstruct. -/
def addC (x y : Cx) : Except Err Cx :=
  match parseC y with
  | .error e => .error e
  | .ok p => mkComplex (jsAdd x.re p.re) (jsAdd x.im p.im)

/-- The sub method. -/
def subC (x y : Cx) : Except Err Cx :=
  match parseC y with
  | .error e => .error e
  | .ok p => mkComplex (jsSub x.re p.re) (jsSub x.im p.im)

/-- The mul method. -/
def mulC (x y : Cx) : Except Err Cx :=
  match parseC y with
  | .error e => .error e
  | .ok p =>
      mkComplex (jsSub (jsMul x.re p.re) (jsMul x.im p.im))
        (jsAdd (jsMul x.re p.im) (jsMul x.im p.re))

/-- The div method: throws DIV/0 on the zero divisor, then applies the
scaled division algorithm of the source, branching on the comparison of
the divisor magnitudes. -/
def divC (x y : Cx) : Except Err Cx :=
  match parseC y with
  | .error e => .error e
  | .ok p =>
      let a := x.re
      let b := x.im
      let c := p.re
      let d := p.im
      if c = JsNum.fin 0 ∧ d = JsNum.fin 0 then .error .divByZero
      else if jsLtP (jsAbs c) (jsAbs d) then
        let r := jsDiv c d
        let t := jsAdd (jsMul c r) d
        mkComplex (jsDiv (jsAdd (jsMul a r) b) t) (jsDiv (jsSub (jsMul b r) a) t)
      else
        let r := jsDiv d c
        let t := jsAdd (jsMul d r) c
        mkComplex (jsDiv (jsAdd a (jsMul b r)) t) (jsDiv (jsSub b (jsMul a r)) t)

/-- The inverse method: throws DIV/0 when re^2 + im^2 is zero. -/
def inverseC (x : Cx) : Except Err Cx :=
  let t := jsAdd (jsMul x.re x.re) (jsMul x.im x.im)
  if t = JsNum.fin 0 then .error .divByZero
  else mkComplex (jsDiv x.re t) (jsDiv (jsNeg x.im) t)

/-- The log method: (logsq2(re, im), atan2(im, re)), reconstructed. -/
def logC (x : Cx) : Except Err Cx :=
  mkComplex (logsq2 x.re x.im) (jsAtan2 x.im x.re)

/-- The pow method of the source: zero base short-circuits to (0, 0);
for a real exponent a non-negative real base uses Math.pow, and a pure
imaginary base switches on the JavaScript remainder of the exponent by 4
(falling through to the general exp/cos/sin formula when the remainder
matches none of the four cases). -/
def powC (x y : Cx) : Except Err Cx :=
  match parseC y with
  | .error e => .error e
  | .ok p =>
      let a := x.re
      let b := x.im
      if a = JsNum.fin 0 ∧ b = JsNum.fin 0 then mkComplex (JsNum.fin 0) (JsNum.fin 0)
      else
        let arg := jsAtan2 b a
        let lg := logsq2 a b
        let s := jsExp (jsSub (jsMul p.re lg) (jsMul p.im arg))
        let ang := jsAdd (jsMul p.im lg) (jsMul p.re arg)
        let general := mkComplex (jsMul s (jsCos ang)) (jsMul s (jsSin ang))
        if p.im = JsNum.fin 0 then
          if b = JsNum.fin 0 ∧ jsLeP (JsNum.fin 0) a then
            mkComplex (jsPow a p.re) (JsNum.fin 0)
          else if a = JsNum.fin 0 then
            let r := jsRem p.re (JsNum.fin 4)
            if r = JsNum.fin 0 then mkComplex (jsPow b p.re) (JsNum.fin 0)
            else if r = JsNum.fin 1 then mkComplex (JsNum.fin 0) (jsPow b p.re)
            else if r = JsNum.fin 2 then mkComplex (jsNeg (jsPow b p.re)) (JsNum.fin 0)
            else if r = JsNum.fin 3 then mkComplex (JsNum.fin 0) (jsNeg (jsPow b p.re))
            else general
          else general
        else general

/-- The atan method, the literal chain of the source:
Complex.I.add(this).div(Complex.I.sub(this)).log().mul(Complex.I).div(2). -/
def atanC (z : Cx) : Except Err Cx :=
  match addC Iconst z with
  | .error e => .error e
  | .ok s1 =>
      match subC Iconst z with
      | .error e => .error e
      | .ok s2 =>
          match divC s1 s2 with
          | .error e => .error e
          | .ok s3 =>
              match logC s3 with
              | .error e => .error e
              | .ok s4 =>
                  match mulC s4 Iconst with
                  | .error e => .error e
                  | .ok s5 => divC s5 ⟨JsNum.fin 2, JsNum.fin 0⟩

/-- The equals method: parse the operand, then compare componentwise
against EPSILON (any comparison against NaN is false). -/
def equalsC (x y : Cx) : Except Err Bool :=
  match parseC y with
  | .error e => .error e
  | .ok p =>
      .ok (if jsLeP (jsAbs (jsSub p.re x.re)) EPSILON ∧
              jsLeP (jsAbs (jsSub p.im x.im)) EPSILON then true else false)

/-! ### Evaluation lemmas for the JavaScript number model -/

namespace JsNum

@[simp] lemma jsNeg_fin (x : ℝ) : jsNeg (fin x) = fin (-x) := rfl

@[simp] lemma jsAbs_fin (x : ℝ) : jsAbs (fin x) = fin |x| := rfl

@[simp] lemma jsAdd_fin_fin (x y : ℝ) : jsAdd (fin x) (fin y) = fin (x + y) := rfl

@[simp] lemma jsSub_fin_fin (x y : ℝ) : jsSub (fin x) (fin y) = fin (x - y) := by
  simp [jsSub, jsAdd, jsNeg, sub_eq_add_neg]

@[simp] lemma jsMul_fin_fin (x y : ℝ) : jsMul (fin x) (fin y) = fin (x * y) := rfl

lemma jsMul_nan_left (y : JsNum) : jsMul nan y = nan := by cases y <;> rfl

lemma jsMul_nan_right (x : JsNum) : jsMul x nan = nan := by cases x <;> rfl

lemma jsSub_nan_right (x : JsNum) : jsSub x nan = nan := by cases x <;> rfl

lemma jsDiv_fin_fin {y : ℝ} (h : y ≠ 0) (x : ℝ) : jsDiv (fin x) (fin y) = fin (x / y) := by
  simp [jsDiv, h]

lemma jsDiv_nan_right (x : JsNum) : jsDiv x nan = nan := by cases x <;> rfl

lemma jsSqrt_fin_nonneg {x : ℝ} (h : 0 ≤ x) : jsSqrt (fin x) = fin (Real.sqrt x) := by
  simp [jsSqrt, h]

lemma jsLog_fin_pos {x : ℝ} (h : 0 < x) : jsLog (fin x) = fin (Real.log x) := by
  simp [jsLog, h]

lemma jsLog_fin_neg {x : ℝ} (h : x < 0) : jsLog (fin x) = nan := by
  simp [jsLog, not_lt.mpr h.le, h.ne]

@[simp] lemma jsExp_fin (x : ℝ) : jsExp (fin x) = fin (Real.exp x) := rfl

@[simp] lemma jsCos_fin (x : ℝ) : jsCos (fin x) = fin (Real.cos x) := rfl

@[simp] lemma jsSin_fin (x : ℝ) : jsSin (fin x) = fin (Real.sin x) := rfl

@[simp] lemma jsAtan2_fin_fin (y x : ℝ) : jsAtan2 (fin y) (fin x) = fin (atan2R y x) := rfl

@[simp] lemma jsLtP_fin_fin (x y : ℝ) : jsLtP (fin x) (fin y) ↔ x < y := Iff.rfl

@[simp] lemma jsLeP_fin_fin (x y : ℝ) : jsLeP (fin x) (fin y) ↔ x ≤ y := Iff.rfl

end JsNum

lemma atan2R_eq_arg (y x : ℝ) : atan2R y x = Complex.arg ⟨x, y⟩ := rfl

lemma mk_complex_ne_zero {x y : ℝ} (h : ¬(x = 0 ∧ y = 0)) : (⟨x, y⟩ : ℂ) ≠ 0 := by
  simp only [ne_eq, Complex.ext_iff, Complex.zero_re, Complex.zero_im]
  exact h

lemma cos_atan2R {y x : ℝ} (h : ¬(x = 0 ∧ y = 0)) :
    Real.cos (atan2R y x) = x / Complex.abs ⟨x, y⟩ :=
  Complex.cos_arg (mk_complex_ne_zero h)

lemma sin_atan2R (y x : ℝ) : Real.sin (atan2R y x) = y / Complex.abs ⟨x, y⟩ :=
  Complex.sin_arg _

lemma atan2R_zero_zero : atan2R 0 0 = 0 := by
  have h : (⟨0, 0⟩ : ℂ) = 0 := by
    simp [Complex.ext_iff]
  rw [atan2R_eq_arg, h, Complex.arg_zero]

lemma abs_mk_pos {x y : ℝ} (h : ¬(x = 0 ∧ y = 0)) : 0 < Complex.abs ⟨x, y⟩ :=
  Complex.abs.pos (mk_complex_ne_zero h)

/-! ### Evaluation lemmas for construction, parsing and arithmetic -/

@[simp] lemma mkComplex_fin_fin (a b : ℝ) :
    mkComplex (JsNum.fin a) (JsNum.fin b) = .ok ⟨JsNum.fin a, JsNum.fin b⟩ := by
  simp [mkComplex]

lemma mkComplex_ne_divByZero (a b : JsNum) : mkComplex a b ≠ .error .divByZero := by
  unfold mkComplex
  split <;> simp

@[simp] lemma parseC_fin (a b : ℝ) :
    parseC ⟨JsNum.fin a, JsNum.fin b⟩ = .ok ⟨JsNum.fin a, JsNum.fin b⟩ := by
  simp [parseC]

lemma addC_fin (a b c d : ℝ) :
    addC ⟨JsNum.fin a, JsNum.fin b⟩ ⟨JsNum.fin c, JsNum.fin d⟩ =
      .ok ⟨JsNum.fin (a + c), JsNum.fin (b + d)⟩ := by
  simp [addC]

lemma subC_fin (a b c d : ℝ) :
    subC ⟨JsNum.fin a, JsNum.fin b⟩ ⟨JsNum.fin c, JsNum.fin d⟩ =
      .ok ⟨JsNum.fin (a - c), JsNum.fin (b - d)⟩ := by
  simp [subC]

lemma mulC_fin (a b c d : ℝ) :
    mulC ⟨JsNum.fin a, JsNum.fin b⟩ ⟨JsNum.fin c, JsNum.fin d⟩ =
      .ok ⟨JsNum.fin (a * c - b * d), JsNum.fin (a * d + b * c)⟩ := by
  simp [mulC]

lemma ne_and_of_abs_lt {c d : ℝ} (hlt : |c| < |d|) : d ≠ 0 := by
  intro h0
  rw [h0, abs_zero] at hlt
  exact absurd hlt (abs_nonneg c).not_lt

lemma ne_of_not_abs_lt {c d : ℝ} (h : ¬(c = 0 ∧ d = 0)) (hge : ¬|c| < |d|) : c ≠ 0 := by
  intro h0
  apply h
  refine ⟨h0, ?_⟩
  rw [h0, abs_zero] at hge
  have := le_antisymm (not_lt.mp hge) (abs_nonneg d)
  exact abs_eq_zero.mp this

lemma smith_t_ne_zero {c d : ℝ} (hc : ¬(c = 0 ∧ d = 0)) (hd : d ≠ 0) :
    c * (c / d) + d ≠ 0 := by
  have hcd : c * c + d * d ≠ 0 := by
    rw [Ne, mul_self_add_mul_self_eq_zero]
    exact hc
  have heq : c * (c / d) + d = (c * c + d * d) / d := by
    field_simp
  rw [heq]
  exact div_ne_zero hcd hd

/-- Evaluation of div on finite operands with a nonzero divisor: the two
branch formulas of the scaled algorithm. -/
lemma divC_fin (a b c d : ℝ) (h : ¬(c = 0 ∧ d = 0)) :
    divC ⟨JsNum.fin a, JsNum.fin b⟩ ⟨JsNum.fin c, JsNum.fin d⟩ =
      if |c| < |d| then
        .ok ⟨JsNum.fin ((a * (c / d) + b) / (c * (c / d) + d)),
             JsNum.fin ((b * (c / d) - a) / (c * (c / d) + d))⟩
      else
        .ok ⟨JsNum.fin ((a + b * (d / c)) / (d * (d / c) + c)),
             JsNum.fin ((b - a * (d / c)) / (d * (d / c) + c))⟩ := by
  by_cases hlt : |c| < |d|
  · have hd : d ≠ 0 := ne_and_of_abs_lt hlt
    have ht : c * (c / d) + d ≠ 0 := smith_t_ne_zero h hd
    simp only [divC, parseC_fin, JsNum.jsAbs_fin, JsNum.fin.injEq, h, if_false,
      JsNum.jsLtP_fin_fin, hlt, if_true, JsNum.jsDiv_fin_fin hd, JsNum.jsMul_fin_fin,
      JsNum.jsAdd_fin_fin, JsNum.jsSub_fin_fin, JsNum.jsDiv_fin_fin ht, mkComplex_fin_fin]
  · have hc : c ≠ 0 := ne_of_not_abs_lt h hlt
    have ht : d * (d / c) + c ≠ 0 := by
      apply smith_t_ne_zero _ hc
      intro hx
      exact h ⟨hx.2, hx.1⟩
    simp only [divC, parseC_fin, JsNum.jsAbs_fin, JsNum.fin.injEq, h, if_false,
      JsNum.jsLtP_fin_fin, hlt, JsNum.jsDiv_fin_fin hc, JsNum.jsMul_fin_fin,
      JsNum.jsAdd_fin_fin, JsNum.jsSub_fin_fin, JsNum.jsDiv_fin_fin ht, mkComplex_fin_fin]

/-- The scaled division reduces, in exact arithmetic, to the textbook
complex quotient. -/
lemma divC_fin_quot (a b c d : ℝ) (h : ¬(c = 0 ∧ d = 0)) :
    divC ⟨JsNum.fin a, JsNum.fin b⟩ ⟨JsNum.fin c, JsNum.fin d⟩ =
      .ok ⟨JsNum.fin ((a * c + b * d) / (c * c + d * d)),
           JsNum.fin ((b * c - a * d) / (c * c + d * d))⟩ := by
  rw [divC_fin a b c d h]
  have hcd : c * c + d * d ≠ 0 := by
    rw [Ne, mul_self_add_mul_self_eq_zero]
    exact h
  by_cases hlt : |c| < |d|
  · have hd : d ≠ 0 := ne_and_of_abs_lt hlt
    have ht : c * (c / d) + d ≠ 0 := smith_t_ne_zero h hd
    rw [if_pos hlt]
    simp only [Except.ok.injEq, Cx.mk.injEq, JsNum.fin.injEq]
    constructor <;> rw [div_eq_div_iff ht hcd] <;> field_simp <;>
      first
      | ring1
      | (left; first | trivial | ring1)
  · have hc : c ≠ 0 := ne_of_not_abs_lt h hlt
    have ht : d * (d / c) + c ≠ 0 := by
      apply smith_t_ne_zero _ hc
      intro hx
      exact h ⟨hx.2, hx.1⟩
    rw [if_neg hlt]
    simp only [Except.ok.injEq, Cx.mk.injEq, JsNum.fin.injEq]
    constructor <;> rw [div_eq_div_iff ht hcd] <;> field_simp <;>
      first
      | ring1
      | (left; first | trivial | ring1)

/-! ### Evaluation of logsq2 and log on finite values -/

lemma logsq2_fin_ex {p q : ℝ} (h : ¬(p = 0 ∧ q = 0)) :
    ∃ L : ℝ, logsq2 (JsNum.fin p) (JsNum.fin q) = JsNum.fin L := by
  unfold logsq2
  by_cases hp : p = 0
  · have hq : q ≠ 0 := fun h0 => h ⟨hp, h0⟩
    subst hp
    rw [if_pos rfl, JsNum.jsAbs_fin, JsNum.jsLog_fin_pos (abs_pos.mpr hq)]
    exact ⟨_, rfl⟩
  · have hpf : JsNum.fin p ≠ JsNum.fin 0 := by simp [hp]
    rw [if_neg hpf]
    by_cases hq : q = 0
    · subst hq
      rw [if_pos rfl, JsNum.jsAbs_fin, JsNum.jsLog_fin_pos (abs_pos.mpr hp)]
      exact ⟨_, rfl⟩
    · have hqf : JsNum.fin q ≠ JsNum.fin 0 := by simp [hq]
      rw [if_neg hqf]
      by_cases hsmall : jsLtP (jsAbs (JsNum.fin p)) (JsNum.fin 1000) ∧
          jsLtP (jsAbs (JsNum.fin q)) (JsNum.fin 1000)
      · rw [if_pos hsmall]
        have hpos : 0 < p * p + q * q :=
          add_pos_of_pos_of_nonneg (mul_self_pos.mpr hp) (mul_self_nonneg q)
        simp only [JsNum.jsMul_fin_fin, JsNum.jsAdd_fin_fin]
        rw [JsNum.jsLog_fin_pos hpos]
        simp only [JsNum.jsMul_fin_fin]
        exact ⟨_, rfl⟩
      · rw [if_neg hsmall]
        simp only [JsNum.jsAtan2_fin_fin, JsNum.jsCos_fin]
        rw [cos_atan2R (fun hx => hp hx.1)]
        have hr : (0:ℝ) < Complex.abs ⟨p, q⟩ := abs_mk_pos (fun hx => hp hx.1)
        have hden : p / Complex.abs ⟨p, q⟩ ≠ 0 := div_ne_zero hp hr.ne'
        rw [JsNum.jsDiv_fin_fin hden]
        have hval : p / (p / Complex.abs ⟨p, q⟩) = Complex.abs ⟨p, q⟩ := by
          field_simp
        rw [hval, JsNum.jsLog_fin_pos hr]
        exact ⟨_, rfl⟩

lemma logC_fin_ex {p q : ℝ} (h : ¬(p = 0 ∧ q = 0)) :
    ∃ L : ℝ, logC ⟨JsNum.fin p, JsNum.fin q⟩ =
      .ok ⟨JsNum.fin L, JsNum.fin (atan2R q p)⟩ := by
  obtain ⟨L, hL⟩ := logsq2_fin_ex h
  refine ⟨L, ?_⟩
  unfold logC
  rw [show (⟨JsNum.fin p, JsNum.fin q⟩ : Cx).re = JsNum.fin p from rfl,
    show (⟨JsNum.fin p, JsNum.fin q⟩ : Cx).im = JsNum.fin q from rfl, hL]
  simp

lemma logC_zero : logC ⟨JsNum.fin 0, JsNum.fin 0⟩ = .error .invalidParam := by
  have h1 : logsq2 (JsNum.fin 0) (JsNum.fin 0) = JsNum.ninf := by
    unfold logsq2
    rw [if_pos rfl]
    simp [JsNum.jsLog]
  have h2 : jsAtan2 (JsNum.fin 0) (JsNum.fin 0) = JsNum.fin 0 := by
    simp [atan2R_zero_zero]
  have h3 : jsMul JsNum.ninf (JsNum.fin 0) = JsNum.nan := by
    simp [jsMul]
  unfold logC
  rw [show (⟨JsNum.fin 0, JsNum.fin 0⟩ : Cx).re = JsNum.fin 0 from rfl,
    show (⟨JsNum.fin 0, JsNum.fin 0⟩ : Cx).im = JsNum.fin 0 from rfl,
    h1, h2]
  unfold mkComplex
  rw [h3, if_pos rfl]

/-! ### Claim C1: the div contract -/

/-- C1: div(x, y) on finite values raises the DivisionByZero error exactly
when y.re = 0 and y.im = 0; otherwise, when the magnitude of y.re is below
that of y.im it returns ((x.re*r+x.im)/t, (x.im*r-x.re)/t) with r = y.re/y.im
and t = y.re*r+y.im, and in the opposite case it returns
((x.re+x.im*r)/t, (x.im-x.re*r)/t) with r = y.im/y.re and t = y.im*r+y.re. -/
theorem claim_C1_div (a b c d : ℝ) :
    (divC ⟨JsNum.fin a, JsNum.fin b⟩ ⟨JsNum.fin c, JsNum.fin d⟩ = .error .divByZero ↔
      c = 0 ∧ d = 0)
    ∧ (|c| < |d| →
        divC ⟨JsNum.fin a, JsNum.fin b⟩ ⟨JsNum.fin c, JsNum.fin d⟩ =
          .ok ⟨JsNum.fin ((a * (c / d) + b) / (c * (c / d) + d)),
               JsNum.fin ((b * (c / d) - a) / (c * (c / d) + d))⟩)
    ∧ (¬(c = 0 ∧ d = 0) → |d| ≤ |c| →
        divC ⟨JsNum.fin a, JsNum.fin b⟩ ⟨JsNum.fin c, JsNum.fin d⟩ =
          .ok ⟨JsNum.fin ((a + b * (d / c)) / (d * (d / c) + c)),
               JsNum.fin ((b - a * (d / c)) / (d * (d / c) + c))⟩) := by
  refine ⟨⟨?_, ?_⟩, ?_, ?_⟩
  · intro he
    by_contra hne
    rw [divC_fin a b c d hne] at he
    by_cases hlt : |c| < |d|
    · rw [if_pos hlt] at he
      exact absurd he (by simp)
    · rw [if_neg hlt] at he
      exact absurd he (by simp)
  · rintro ⟨hc, hd⟩
    subst hc
    subst hd
    simp [divC, parseC]
  · intro hlt
    have h : ¬(c = 0 ∧ d = 0) := by
      rintro ⟨hc, hd⟩
      rw [hc, hd] at hlt
      simp at hlt
    rw [divC_fin a b c d h, if_pos hlt]
  · intro h hge
    rw [divC_fin a b c d h, if_neg (not_lt.mpr hge)]

/-- Witness for C1 at x = 1, y = 3+4i (the branch with small real part). -/
theorem claim_C1_div_witness :
    |(3:ℝ)| < |(4:ℝ)| ∧
    divC ⟨JsNum.fin 1, JsNum.fin 0⟩ ⟨JsNum.fin 3, JsNum.fin 4⟩ =
      .ok ⟨JsNum.fin ((1 * (3 / 4) + 0) / (3 * (3 / 4) + 4)),
           JsNum.fin ((0 * (3 / 4) - 1) / (3 * (3 / 4) + 4))⟩ :=
  ⟨by norm_num, (claim_C1_div 1 0 3 4).2.1 (by norm_num)⟩

/-! ### Claim C6: the inverse contract -/

/-- C6: inverse(x) on finite values raises the DivisionByZero error exactly
when x.re = 0 and x.im = 0; every other input yields (x.re/t, -x.im/t) with
t = x.re^2 + x.im^2, without raising any error. -/
theorem claim_C6_inverse (a b : ℝ) :
    (inverseC ⟨JsNum.fin a, JsNum.fin b⟩ = .error .divByZero ↔ a = 0 ∧ b = 0)
    ∧ (¬(a = 0 ∧ b = 0) →
        inverseC ⟨JsNum.fin a, JsNum.fin b⟩ =
          .ok ⟨JsNum.fin (a / (a * a + b * b)), JsNum.fin (-b / (a * a + b * b))⟩) := by
  have heval : ∀ _ : ¬(a = 0 ∧ b = 0),
      inverseC ⟨JsNum.fin a, JsNum.fin b⟩ =
        .ok ⟨JsNum.fin (a / (a * a + b * b)), JsNum.fin (-b / (a * a + b * b))⟩ := by
    intro h
    have ht : a * a + b * b ≠ 0 := by
      rw [Ne, mul_self_add_mul_self_eq_zero]
      exact h
    simp only [inverseC, JsNum.jsMul_fin_fin, JsNum.jsAdd_fin_fin, JsNum.jsNeg_fin]
    rw [if_neg (by simp [ht]), JsNum.jsDiv_fin_fin ht, JsNum.jsDiv_fin_fin ht]
    simp
  refine ⟨⟨?_, ?_⟩, heval⟩
  · intro he
    by_contra hne
    rw [heval hne] at he
    exact absurd he (by simp)
  · rintro ⟨h1, h2⟩
    subst h1
    subst h2
    simp [inverseC]

/-- Witness for C6 at x = 1 + 2i. -/
theorem claim_C6_inverse_witness :
    inverseC ⟨JsNum.fin 1, JsNum.fin 2⟩ =
      .ok ⟨JsNum.fin (1 / (1 * 1 + 2 * 2)), JsNum.fin (-2 / (1 * 1 + 2 * 2))⟩ :=
  (claim_C6_inverse 1 2).2 (by norm_num)

/-! ### Claim C2: the logsq2 contract -/

/-- C2 counterexample: at re = -2000, im = 1 (the overflow-avoiding branch:
both parts nonzero and a magnitude at least 1000), logsq2 does not return
log(abs(re) / cos(atan2(im, re))): that formula has a negative argument, so
its Math.log is NaN, while the source divides the raw re by the cosine and
gets the (positive) magnitude. -/
theorem claim_C2_logsq2_counterexample :
    ((-2000:ℝ) ≠ 0 ∧ (1:ℝ) ≠ 0 ∧ ¬(|(-2000:ℝ)| < 1000 ∧ |(1:ℝ)| < 1000)) ∧
    logsq2 (JsNum.fin (-2000)) (JsNum.fin 1) ≠
      jsLog (JsNum.fin (|(-2000:ℝ)| / Real.cos (atan2R 1 (-2000)))) := by
  refine ⟨by norm_num, ?_⟩
  have hc : Real.cos (atan2R 1 (-2000)) = -2000 / Complex.abs ⟨-2000, 1⟩ :=
    cos_atan2R (by norm_num)
  have hr : (0:ℝ) < Complex.abs ⟨-2000, 1⟩ := abs_mk_pos (by norm_num)
  have hcneg : Real.cos (atan2R 1 (-2000)) < 0 := by
    rw [hc]
    exact div_neg_of_neg_of_pos (by norm_num) hr
  obtain ⟨L, hL⟩ := logsq2_fin_ex (p := -2000) (q := 1) (by norm_num)
  have hrhs : jsLog (JsNum.fin (|(-2000:ℝ)| / Real.cos (atan2R 1 (-2000)))) = JsNum.nan := by
    apply JsNum.jsLog_fin_neg
    have habs : |(-2000:ℝ)| = 2000 := by norm_num
    rw [habs]
    exact div_neg_of_pos_of_neg (by norm_num) hcneg
  rw [hL, hrhs]
  simp

/-- C2 amended: the branch contract of logsq2 with the raw real part (not
its absolute value) as the numerator of the atan2-identity branch. -/
theorem claim_C2_logsq2_amended (a b : ℝ) :
    logsq2 (JsNum.fin a) (JsNum.fin b) =
      if a = 0 then jsLog (JsNum.fin |b|)
      else if b = 0 then jsLog (JsNum.fin |a|)
      else if |a| < 1000 ∧ |b| < 1000 then JsNum.fin (0.5 * Real.log (a ^ 2 + b ^ 2))
      else jsLog (JsNum.fin (a / Real.cos (atan2R b a))) := by
  unfold logsq2
  by_cases ha : a = 0
  · subst ha
    rw [if_pos rfl, if_pos rfl]
    rfl
  · have haf : JsNum.fin a ≠ JsNum.fin 0 := by simp [ha]
    rw [if_neg haf, if_neg ha]
    by_cases hb : b = 0
    · subst hb
      rw [if_pos rfl, if_pos rfl]
      rfl
    · have hbf : JsNum.fin b ≠ JsNum.fin 0 := by simp [hb]
      rw [if_neg hbf, if_neg hb]
      by_cases hsmall : |a| < 1000 ∧ |b| < 1000
      · have hsmall' : jsLtP (jsAbs (JsNum.fin a)) (JsNum.fin 1000) ∧
            jsLtP (jsAbs (JsNum.fin b)) (JsNum.fin 1000) := by
          simpa using hsmall
        rw [if_pos hsmall', if_pos hsmall]
        have hpos : 0 < a * a + b * b :=
          add_pos_of_pos_of_nonneg (mul_self_pos.mpr ha) (mul_self_nonneg b)
        simp only [JsNum.jsMul_fin_fin, JsNum.jsAdd_fin_fin]
        rw [JsNum.jsLog_fin_pos hpos]
        simp only [JsNum.jsMul_fin_fin, JsNum.fin.injEq]
        rw [show a ^ 2 + b ^ 2 = a * a + b * b by ring]
        ring
      · have hsmall' : ¬(jsLtP (jsAbs (JsNum.fin a)) (JsNum.fin 1000) ∧
            jsLtP (jsAbs (JsNum.fin b)) (JsNum.fin 1000)) := by
          simpa using hsmall
        rw [if_neg hsmall', if_neg hsmall]
        simp only [JsNum.jsAtan2_fin_fin, JsNum.jsCos_fin]
        have hcos : Real.cos (atan2R b a) = a / Complex.abs ⟨a, b⟩ :=
          cos_atan2R (fun hx => ha hx.1)
        have hr : (0:ℝ) < Complex.abs ⟨a, b⟩ := abs_mk_pos (fun hx => ha hx.1)
        have hden : Real.cos (atan2R b a) ≠ 0 := by
          rw [hcos]
          exact div_ne_zero ha hr.ne'
        rw [JsNum.jsDiv_fin_fin hden]

/-! ### Claim C3: the abs contract -/

/-- C3: abs computes sqrt(re^2+im^2) directly when both magnitudes are below
1000; otherwise it multiplies the larger magnitude by sqrt(1+ratio^2) where
the ratio is the signed quotient of the raw smaller-magnitude field by the
raw larger-magnitude field; abs(0,0) = 0 and abs is NaN whenever either
field is NaN. -/
theorem claim_C3_abs :
    (∀ re im : ℝ, |re| < 1000 → |im| < 1000 →
        absC ⟨JsNum.fin re, JsNum.fin im⟩ = JsNum.fin (Real.sqrt (re ^ 2 + im ^ 2)))
    ∧ (∀ re im : ℝ, ¬(|re| < 1000 ∧ |im| < 1000) →
        (|re| < |im| →
          absC ⟨JsNum.fin re, JsNum.fin im⟩ =
            JsNum.fin (|im| * Real.sqrt (1 + (re / im) ^ 2)))
        ∧ (|im| ≤ |re| →
          absC ⟨JsNum.fin re, JsNum.fin im⟩ =
            JsNum.fin (|re| * Real.sqrt (1 + (im / re) ^ 2))))
    ∧ absC ⟨JsNum.fin 0, JsNum.fin 0⟩ = JsNum.fin 0
    ∧ (∀ x : JsNum, absC ⟨JsNum.nan, x⟩ = JsNum.nan ∧ absC ⟨x, JsNum.nan⟩ = JsNum.nan) := by
  refine ⟨?_, ?_, ?_, ?_⟩
  · intro re im h1 h2
    unfold absC
    rw [if_pos (by simpa using And.intro h1 h2)]
    simp only [JsNum.jsAbs_fin, JsNum.jsMul_fin_fin, JsNum.jsAdd_fin_fin]
    rw [JsNum.jsSqrt_fin_nonneg (by positivity)]
    congr 1
    rw [abs_mul_abs_self, abs_mul_abs_self]
    ring
  · intro re im h
    have hbig : ¬(jsLtP (jsAbs (JsNum.fin re)) (JsNum.fin 1000) ∧
        jsLtP (jsAbs (JsNum.fin im)) (JsNum.fin 1000)) := by
      simpa using h
    constructor
    · intro hlt
      have him : im ≠ 0 := ne_and_of_abs_lt hlt
      unfold absC
      rw [if_neg hbig, if_pos (by simpa using hlt)]
      simp only [JsNum.jsAbs_fin]
      rw [JsNum.jsDiv_fin_fin him]
      simp only [JsNum.jsMul_fin_fin, JsNum.jsAdd_fin_fin]
      rw [JsNum.jsSqrt_fin_nonneg (by nlinarith [mul_self_nonneg (re / im)])]
      simp only [JsNum.jsMul_fin_fin, JsNum.fin.injEq]
      rw [show (1:ℝ) + re / im * (re / im) = 1 + (re / im) ^ 2 by ring]
    · intro hge
      have hre : re ≠ 0 := by
        intro h0
        apply h
        have him0 : im = 0 := by
          rw [h0, abs_zero] at hge
          exact abs_eq_zero.mp (le_antisymm hge (abs_nonneg im))
        rw [h0, him0]
        norm_num
      unfold absC
      rw [if_neg hbig, if_neg (by simpa using not_lt.mpr hge)]
      simp only [JsNum.jsAbs_fin]
      rw [JsNum.jsDiv_fin_fin hre]
      simp only [JsNum.jsMul_fin_fin, JsNum.jsAdd_fin_fin]
      rw [JsNum.jsSqrt_fin_nonneg (by nlinarith [mul_self_nonneg (im / re)])]
      simp only [JsNum.jsMul_fin_fin, JsNum.fin.injEq]
      rw [show (1:ℝ) + im / re * (im / re) = 1 + (im / re) ^ 2 by ring]
  · unfold absC
    rw [if_pos (by norm_num)]
    simp [JsNum.jsSqrt]
  · intro x
    constructor
    · cases x <;>
        simp [absC, JsNum.jsLtP, JsNum.jsAbs, JsNum.jsDiv, JsNum.jsMul, JsNum.jsAdd,
          JsNum.jsSqrt]
    · cases x <;>
        simp [absC, JsNum.jsLtP, JsNum.jsAbs, JsNum.jsDiv, JsNum.jsMul, JsNum.jsAdd,
          JsNum.jsSqrt]

/-- Witness for C3: the direct branch at 3+4i and the scaled branch at
3000+4000i. -/
theorem claim_C3_abs_witness :
    absC ⟨JsNum.fin 3, JsNum.fin 4⟩ = JsNum.fin (Real.sqrt ((3:ℝ) ^ 2 + 4 ^ 2)) ∧
    absC ⟨JsNum.fin 3000, JsNum.fin 4000⟩ =
      JsNum.fin (|(4000:ℝ)| * Real.sqrt (1 + ((3000:ℝ) / 4000) ^ 2)) :=
  ⟨claim_C3_abs.1 3 4 (by norm_num) (by norm_num),
   (claim_C3_abs.2.1 3000 4000 (by norm_num)).1 (by norm_num)⟩

/-! ### Claim C7: equals and NaN operands -/

lemma equalsC_eval (x y : Cx) (h : jsMul y.re y.im ≠ JsNum.nan) :
    equalsC x y = .ok (if jsLeP (jsAbs (jsSub y.re x.re)) EPSILON ∧
        jsLeP (jsAbs (jsSub y.im x.im)) EPSILON then true else false) := by
  unfold equalsC parseC
  rw [if_neg h]

/-- C7 counterexample: comparing against an argument that holds NaN does not
return false; the operand parser throws Invalid Param. -/
theorem claim_C7_equals_counterexample :
    equalsC ⟨JsNum.fin 0, JsNum.fin 0⟩ ⟨JsNum.nan, JsNum.fin 0⟩ = .error .invalidParam := by
  have h : jsMul JsNum.nan (JsNum.fin 0) = JsNum.nan := JsNum.jsMul_nan_left _
  unfold equalsC parseC
  rw [if_pos h]

/-- C7 amended: when the argument holds NaN in either component, equals
raises the InvalidArgument error from operand parsing; when the receiver
holds NaN in either component and the argument parses, equals returns
false. -/
theorem claim_C7_equals_amended (x y : Cx) :
    ((y.re = JsNum.nan ∨ y.im = JsNum.nan) → equalsC x y = .error .invalidParam)
    ∧ ((x.re = JsNum.nan ∨ x.im = JsNum.nan) → jsMul y.re y.im ≠ JsNum.nan →
        equalsC x y = .ok false) := by
  constructor
  · intro hy
    have h : jsMul y.re y.im = JsNum.nan := by
      rcases hy with h | h
      · rw [h]
        exact JsNum.jsMul_nan_left _
      · rw [h]
        exact JsNum.jsMul_nan_right _
    unfold equalsC parseC
    rw [if_pos h]
  · intro hx hok
    rw [equalsC_eval x y hok]
    have hcond : ¬(jsLeP (jsAbs (jsSub y.re x.re)) EPSILON ∧
        jsLeP (jsAbs (jsSub y.im x.im)) EPSILON) := by
      rcases hx with h | h
      · rintro ⟨h1, -⟩
        rw [h, JsNum.jsSub_nan_right] at h1
        exact h1
      · rintro ⟨-, h2⟩
        rw [h, JsNum.jsSub_nan_right] at h2
        exact h2
    rw [if_neg hcond]

/-- Witness for C7 amended: a NaN argument throws, a NaN receiver with a
clean argument compares false. -/
theorem claim_C7_equals_amended_witness :
    equalsC ⟨JsNum.fin 0, JsNum.fin 0⟩ ⟨JsNum.fin 1, JsNum.nan⟩ = .error .invalidParam ∧
    equalsC ⟨JsNum.nan, JsNum.fin 0⟩ ⟨JsNum.fin 1, JsNum.fin 2⟩ = .ok false :=
  ⟨(claim_C7_equals_amended ⟨JsNum.fin 0, JsNum.fin 0⟩ ⟨JsNum.fin 1, JsNum.nan⟩).1
      (Or.inr rfl),
   (claim_C7_equals_amended ⟨JsNum.nan, JsNum.fin 0⟩ ⟨JsNum.fin 1, JsNum.fin 2⟩).2
      (Or.inl rfl) (by simp)⟩

/-! ### Claim C8: the finite-or-NaN invariant -/

/-- C8 counterexample: the public constructor accepts Infinity paired with a
nonzero finite part and stores the infinite field, violating the claimed
finite-or-NaN invariant. -/
theorem claim_C8_invariant_counterexample :
    mkComplex JsNum.pinf (JsNum.fin 5) = .ok ⟨JsNum.pinf, JsNum.fin 5⟩ := by
  have h : jsMul JsNum.pinf (JsNum.fin 5) = JsNum.pinf := by
    norm_num [JsNum.jsMul]
  unfold mkComplex
  rw [if_neg (by rw [h]; simp)]

/-- C8 amended: constructed values never hold NaN in a field (the NaN
product check rules that out), but a field can be an infinity:
Complex(Infinity, 5) is accepted with an infinite real field. -/
theorem claim_C8_invariant_amended :
    (∀ a b : JsNum, ∀ z : Cx, mkComplex a b = .ok z →
        z.re ≠ JsNum.nan ∧ z.im ≠ JsNum.nan)
    ∧ mkComplex JsNum.pinf (JsNum.fin 5) = .ok ⟨JsNum.pinf, JsNum.fin 5⟩ := by
  constructor
  · intro a b z hz
    unfold mkComplex at hz
    by_cases h : jsMul a b = JsNum.nan
    · rw [if_pos h] at hz
      exact absurd hz (by simp)
    · rw [if_neg h] at hz
      have hz' : (⟨a, b⟩ : Cx) = z := by
        injection hz
      subst hz'
      constructor
      · intro hre
        exact h (by rw [show a = JsNum.nan from hre]; exact JsNum.jsMul_nan_left b)
      · intro him
        exact h (by rw [show b = JsNum.nan from him]; exact JsNum.jsMul_nan_right a)
  · have h : jsMul JsNum.pinf (JsNum.fin 5) = JsNum.pinf := by
      norm_num [JsNum.jsMul]
    unfold mkComplex
    rw [if_neg (by rw [h]; simp)]

/-- Witness for C8 amended at the constructed value 1 + 2i. -/
theorem claim_C8_invariant_amended_witness :
    mkComplex (JsNum.fin 1) (JsNum.fin 2) = .ok ⟨JsNum.fin 1, JsNum.fin 2⟩ ∧
    (⟨JsNum.fin 1, JsNum.fin 2⟩ : Cx).re ≠ JsNum.nan :=
  ⟨mkComplex_fin_fin 1 2,
   (claim_C8_invariant_amended.1 (JsNum.fin 1) (JsNum.fin 2) ⟨JsNum.fin 1, JsNum.fin 2⟩
      (mkComplex_fin_fin 1 2)).1⟩

/-! ### Claim C10: constructor validation -/

/-- C10: construction (and operand parsing) raises the invalid-argument
error exactly when the product of the two parts is NaN; Complex(Infinity, 0)
is rejected because Infinity times zero is NaN, while Complex(Infinity, 5)
is accepted and stores the infinite real field. -/
theorem claim_C10_parse (a b : JsNum) :
    (mkComplex a b = .error .invalidParam ↔ jsMul a b = JsNum.nan)
    ∧ (∀ y : Cx, parseC y = .error .invalidParam ↔ jsMul y.re y.im = JsNum.nan)
    ∧ mkComplex JsNum.pinf (JsNum.fin 0) = .error .invalidParam
    ∧ mkComplex JsNum.pinf (JsNum.fin 5) = .ok ⟨JsNum.pinf, JsNum.fin 5⟩ := by
  refine ⟨⟨?_, ?_⟩, ?_, ?_, ?_⟩
  · intro he
    by_contra h
    unfold mkComplex at he
    rw [if_neg h] at he
    exact absurd he (by simp)
  · intro h
    unfold mkComplex
    rw [if_pos h]
  · intro y
    constructor
    · intro he
      by_contra h
      unfold parseC at he
      rw [if_neg h] at he
      exact absurd he (by simp)
    · intro h
      unfold parseC
      rw [if_pos h]
  · have h : jsMul JsNum.pinf (JsNum.fin 0) = JsNum.nan := by
      simp [JsNum.jsMul]
    unfold mkComplex
    rw [if_pos h]
  · have h : jsMul JsNum.pinf (JsNum.fin 5) = JsNum.pinf := by
      norm_num [JsNum.jsMul]
    unfold mkComplex
    rw [if_neg (by rw [h]; simp)]

/-! ### Claim C9: the atan chain -/

lemma divC_zero_divisor (x : Cx) :
    divC x ⟨JsNum.fin 0, JsNum.fin 0⟩ = .error .divByZero := by
  simp [divC, parseC]

lemma atanC_at_I : atanC ⟨JsNum.fin 0, JsNum.fin 1⟩ = .error .divByZero := by
  simp only [atanC, Iconst, addC_fin, subC_fin]
  norm_num
  rw [divC_zero_divisor]

lemma atanC_at_negI : atanC ⟨JsNum.fin 0, JsNum.fin (-1)⟩ = .error .invalidParam := by
  simp only [atanC, Iconst, addC_fin, subC_fin]
  norm_num
  rw [divC_fin_quot 0 0 0 2 (by norm_num)]
  norm_num
  rw [logC_zero]

lemma atanC_ok (a b : ℝ) (hz1 : ¬(a = 0 ∧ b = 1)) (hz2 : ¬(a = 0 ∧ b = -1)) :
    ∃ w : Cx, atanC ⟨JsNum.fin a, JsNum.fin b⟩ = .ok w := by
  have hne2 : ¬(0 - a = 0 ∧ 1 - b = 0) := by
    rintro ⟨h1, h2⟩
    exact hz1 ⟨by linarith, by linarith⟩
  set c := 0 - a with hc
  set d := 1 - b with hd
  set u := 0 + a with hu
  set v := 1 + b with hv
  have hD : c * c + d * d ≠ 0 := by
    rw [Ne, mul_self_add_mul_self_eq_zero]
    exact hne2
  set P := (u * c + v * d) / (c * c + d * d) with hP
  set Q := (v * c - u * d) / (c * c + d * d) with hQ
  have hPQ : ¬(P = 0 ∧ Q = 0) := by
    rintro ⟨hP0, hQ0⟩
    have hn1 : u * c + v * d = 0 := by
      rcases div_eq_zero_iff.mp hP0 with h | h
      · exact h
      · exact absurd h hD
    have hn2 : v * c - u * d = 0 := by
      rcases div_eq_zero_iff.mp hQ0 with h | h
      · exact h
      · exact absurd h hD
    have hu0 : u * (c * c + d * d) = 0 := by
      have : u * (c * c + d * d) = (u * c + v * d) * c - (v * c - u * d) * d := by
        ring
      rw [this, hn1, hn2]
      ring
    have hv0 : v * (c * c + d * d) = 0 := by
      have : v * (c * c + d * d) = (u * c + v * d) * d + (v * c - u * d) * c := by
        ring
      rw [this, hn1, hn2]
      ring
    have hu' : u = 0 := by
      rcases mul_eq_zero.mp hu0 with h | h
      · exact h
      · exact absurd h hD
    have hv' : v = 0 := by
      rcases mul_eq_zero.mp hv0 with h | h
      · exact h
      · exact absurd h hD
    exact hz2 ⟨by rw [hu] at hu'; linarith, by rw [hv] at hv'; linarith⟩
  obtain ⟨L, hL⟩ := logC_fin_ex hPQ
  simp only [atanC, Iconst, addC_fin, subC_fin, ← hu, ← hv, ← hc, ← hd,
    divC_fin_quot u v c d hne2, ← hP, ← hQ, hL, mulC_fin,
    divC_fin_quot _ _ 2 0 (by norm_num)]
  exact ⟨_, rfl⟩

/-- C9 counterexample: at z = -i (not the claimed singular point i) the atan
chain raises the InvalidArgument error instead of returning a value: the
quotient is (0, 0), its log has real part -Infinity and imaginary part 0,
and the constructor rejects the NaN product. -/
theorem claim_C9_atan_counterexample :
    ((-1 : ℝ) ≠ 1) ∧
    atanC ⟨JsNum.fin 0, JsNum.fin (-1)⟩ = .error .invalidParam :=
  ⟨by norm_num, atanC_at_negI⟩

/-- C9 amended: atan raises DivisionByZero exactly at z = i, raises
InvalidArgument exactly at z = -i (log of the zero quotient yields
-Infinity, whose product with the zero imaginary part is NaN, rejected by
the constructor), and returns the value of the chain without error on every
other finite input. -/
theorem claim_C9_atan_amended (a b : ℝ) :
    (atanC ⟨JsNum.fin a, JsNum.fin b⟩ = .error .divByZero ↔ (a = 0 ∧ b = 1))
    ∧ (atanC ⟨JsNum.fin a, JsNum.fin b⟩ = .error .invalidParam ↔ (a = 0 ∧ b = -1))
    ∧ (¬(a = 0 ∧ b = 1) → ¬(a = 0 ∧ b = -1) →
        ∃ w : Cx, atanC ⟨JsNum.fin a, JsNum.fin b⟩ = .ok w) := by
  refine ⟨⟨?_, ?_⟩, ⟨?_, ?_⟩, atanC_ok a b⟩
  · intro he
    by_contra h1
    by_cases h2 : a = 0 ∧ b = -1
    · rw [h2.1, h2.2] at he
      rw [atanC_at_negI] at he
      exact absurd he (by simp)
    · obtain ⟨w, hw⟩ := atanC_ok a b h1 h2
      rw [hw] at he
      exact absurd he (by simp)
  · rintro ⟨h1, h2⟩
    rw [h1, h2]
    exact atanC_at_I
  · intro he
    by_contra h2
    by_cases h1 : a = 0 ∧ b = 1
    · rw [h1.1, h1.2] at he
      rw [atanC_at_I] at he
      exact absurd he (by simp)
    · obtain ⟨w, hw⟩ := atanC_ok a b h1 h2
      rw [hw] at he
      exact absurd he (by simp)
  · rintro ⟨h1, h2⟩
    rw [h1, h2]
    exact atanC_at_negI

/-- Witness for C9 amended: atan succeeds at z = 1 + i. -/
theorem claim_C9_atan_amended_witness :
    ∃ w : Cx, atanC ⟨JsNum.fin 1, JsNum.fin 1⟩ = .ok w :=
  (claim_C9_atan_amended 1 1).2.2 (by norm_num) (by norm_num)

/-! ### Claim C4: pow with a pure imaginary base and an integer exponent -/

lemma jsTrunc_of_nonneg {t : ℝ} (h : 0 ≤ t) : jsTrunc t = ⌊t⌋ := if_pos h

lemma jsTrunc_of_neg {t : ℝ} (h : t < 0) : jsTrunc t = ⌈t⌉ := if_neg (not_le.mpr h)

/-- The JavaScript remainder of an integer 4q + k (0 <= k < 4) by 4: k when
the dividend is non-negative (or k = 0), and k - 4 for a negative dividend
with nonzero k - a value matching none of the switch cases. -/
lemma jsRem_int (q k : ℤ) (hk0 : 0 ≤ k) (hk4 : k < 4) :
    jsRem (JsNum.fin ((4 * q + k : ℤ) : ℝ)) (JsNum.fin 4) =
      (if 0 ≤ q ∨ k = 0 then JsNum.fin (k : ℝ) else JsNum.fin ((k : ℝ) - 4)) := by
  have h4 : (4 : ℝ) ≠ 0 := by norm_num
  simp only [jsRem, h4, if_false]
  have hquot : ((4 * q + k : ℤ) : ℝ) / 4 = (k : ℝ) / 4 + (q : ℤ) := by
    push_cast
    ring
  by_cases hq : 0 ≤ q
  · rw [if_pos (Or.inl hq)]
    have htr : jsTrunc (((4 * q + k : ℤ) : ℝ) / 4) = (q : ℝ) := by
      have hkr : (k : ℝ) < 4 := by exact_mod_cast hk4
      rw [hquot, jsTrunc_of_nonneg (by positivity), Int.floor_add_int,
        Int.floor_eq_zero_iff.mpr ⟨by positivity, by linarith⟩]
      push_cast
      ring
    rw [htr]
    congr 1
    push_cast
    ring
  · push_neg at hq
    by_cases hk : k = 0
    · rw [if_pos (Or.inr hk)]
      subst hk
      have htr : jsTrunc (((4 * q + 0 : ℤ) : ℝ) / 4) = (q : ℝ) := by
        have hneg : ((4 * q + 0 : ℤ) : ℝ) / 4 < 0 := by
          push_cast
          have : (q : ℝ) ≤ -1 := by
            exact_mod_cast Int.le_sub_one_of_lt hq
          linarith
        rw [jsTrunc_of_neg hneg, hquot]
        push_cast
        rw [show (0 : ℝ) / 4 + (q:ℝ) = (q:ℝ) by ring]
        exact_mod_cast Int.ceil_intCast q
      rw [htr]
      congr 1
      push_cast
      ring
    · rw [if_neg (by push_neg; exact ⟨hq, hk⟩)]
      have hk1 : 1 ≤ k := by omega
      have hqr : (q : ℝ) ≤ -1 := by
        exact_mod_cast Int.le_sub_one_of_lt hq
      have hneg : ((4 * q + k : ℤ) : ℝ) / 4 < 0 := by
        push_cast
        have hkr : (k : ℝ) < 4 := by exact_mod_cast hk4
        linarith
      have hceil : ⌈(k : ℝ) / 4⌉ = 1 := by
        rw [Int.ceil_eq_iff]
        have hkr1 : (1 : ℝ) ≤ (k : ℝ) := by exact_mod_cast hk1
        have hkr : (k : ℝ) < 4 := by exact_mod_cast hk4
        constructor
        · push_cast
          linarith
        · push_cast
          linarith
      have htr : jsTrunc (((4 * q + k : ℤ) : ℝ) / 4) = (q : ℝ) + 1 := by
        rw [jsTrunc_of_neg hneg, hquot, Int.ceil_add_int, hceil]
        push_cast
        ring
      rw [htr]
      congr 1
      push_cast
      ring

lemma jsPow_fin_int {b : ℝ} (hb : b ≠ 0) (n : ℤ) :
    jsPow (JsNum.fin b) (JsNum.fin ((n : ℤ) : ℝ)) = JsNum.fin (b ^ n) := by
  simp only [jsPow]
  rcases lt_trichotomy 0 b with h | h | h
  · rw [if_pos h, Real.rpow_intCast]
  · exact absurd h.symm hb
  · rw [if_neg (by linarith), if_neg hb, if_pos ⟨n, rfl⟩, Real.rpow_intCast]

lemma logsq2_zero_left {b : ℝ} (hb : b ≠ 0) :
    logsq2 (JsNum.fin 0) (JsNum.fin b) = JsNum.fin (Real.log |b|) := by
  unfold logsq2
  rw [if_pos rfl, JsNum.jsAbs_fin, JsNum.jsLog_fin_pos (abs_pos.mpr hb)]

lemma atan2R_pos_imag {b : ℝ} (hb : 0 < b) : atan2R b 0 = Real.pi / 2 :=
  Complex.arg_eq_pi_div_two_iff.mpr ⟨rfl, hb⟩

lemma atan2R_neg_imag {b : ℝ} (hb : b < 0) : atan2R b 0 = -(Real.pi / 2) :=
  Complex.arg_eq_neg_pi_div_two_iff.mpr ⟨rfl, hb⟩

lemma cos_int_mul_half_pi (q k : ℤ) :
    Real.cos (((4 * q + k : ℤ) : ℝ) * (Real.pi / 2)) =
      Real.cos ((k : ℝ) * (Real.pi / 2)) := by
  have h : ((4 * q + k : ℤ) : ℝ) * (Real.pi / 2) =
      (k : ℝ) * (Real.pi / 2) + (q : ℤ) * (2 * Real.pi) := by
    push_cast
    ring
  rw [h, Real.cos_add_int_mul_two_pi]

lemma sin_int_mul_half_pi (q k : ℤ) :
    Real.sin (((4 * q + k : ℤ) : ℝ) * (Real.pi / 2)) =
      Real.sin ((k : ℝ) * (Real.pi / 2)) := by
  have h : ((4 * q + k : ℤ) : ℝ) * (Real.pi / 2) =
      (k : ℝ) * (Real.pi / 2) + (q : ℤ) * (2 * Real.pi) := by
    push_cast
    ring
  rw [h, Real.sin_add_int_mul_two_pi]

lemma cos_three_half_pi : Real.cos ((3:ℝ) * (Real.pi / 2)) = 0 := by
  rw [show (3:ℝ) * (Real.pi / 2) = Real.pi + Real.pi / 2 by ring, Real.cos_add]
  simp

lemma sin_three_half_pi : Real.sin ((3:ℝ) * (Real.pi / 2)) = -1 := by
  rw [show (3:ℝ) * (Real.pi / 2) = Real.pi + Real.pi / 2 by ring, Real.sin_add]
  simp

lemma neg_one_zpow_four_mul_add (q k : ℤ) : ((-1:ℝ)) ^ (4 * q + k) = (-1:ℝ) ^ k := by
  rw [zpow_add₀ (by norm_num : (-1:ℝ) ≠ 0), zpow_mul]
  norm_num

lemma zpow_of_neg_base {b : ℝ} (hb : b < 0) (n : ℤ) :
    b ^ n = (-1:ℝ) ^ n * |b| ^ n := by
  rw [abs_of_neg hb, show -b = -1 * b by ring, mul_zpow]
  have hne : ((-1:ℝ)) ^ n * ((-1:ℝ)) ^ n = 1 := by
    rw [← zpow_add₀ (by norm_num : (-1:ℝ) ≠ 0)]
    rw [show n + n = 2 * n by ring, zpow_mul]
    norm_num
  calc b ^ n = (((-1:ℝ)) ^ n * ((-1:ℝ)) ^ n) * b ^ n := by rw [hne]; ring
    _ = (-1:ℝ) ^ n * ((-1:ℝ) ^ n * b ^ n) := by ring

/-- The four closed forms of the claim, indexed by the integer exponent
modulo 4: (im^n, 0), (0, im^n), (-im^n, 0), (0, -im^n). -/
def c4form (b : ℝ) (n : ℤ) : Cx :=
  if n % 4 = 0 then ⟨JsNum.fin (b ^ n), JsNum.fin 0⟩
  else if n % 4 = 1 then ⟨JsNum.fin 0, JsNum.fin (b ^ n)⟩
  else if n % 4 = 2 then ⟨JsNum.fin (-(b ^ n)), JsNum.fin 0⟩
  else ⟨JsNum.fin 0, JsNum.fin (-(b ^ n))⟩

/-- Evaluation of pow for a pure imaginary base: the switch on the
JavaScript remainder of the exponent by 4, falling through to the general
exp/cos/sin formula when no case matches. -/
lemma powC_imag_eval (b : ℝ) (hb : b ≠ 0) (c r : ℝ)
    (hrem : jsRem (JsNum.fin c) (JsNum.fin 4) = JsNum.fin r) :
    powC ⟨JsNum.fin 0, JsNum.fin b⟩ ⟨JsNum.fin c, JsNum.fin 0⟩ =
      if r = 0 then mkComplex (jsPow (JsNum.fin b) (JsNum.fin c)) (JsNum.fin 0)
      else if r = 1 then mkComplex (JsNum.fin 0) (jsPow (JsNum.fin b) (JsNum.fin c))
      else if r = 2 then mkComplex (jsNeg (jsPow (JsNum.fin b) (JsNum.fin c))) (JsNum.fin 0)
      else if r = 3 then mkComplex (JsNum.fin 0) (jsNeg (jsPow (JsNum.fin b) (JsNum.fin c)))
      else
        mkComplex
          (jsMul (jsExp (jsSub (jsMul (JsNum.fin c) (logsq2 (JsNum.fin 0) (JsNum.fin b)))
              (jsMul (JsNum.fin 0) (jsAtan2 (JsNum.fin b) (JsNum.fin 0)))))
            (jsCos (jsAdd (jsMul (JsNum.fin 0) (logsq2 (JsNum.fin 0) (JsNum.fin b)))
              (jsMul (JsNum.fin c) (jsAtan2 (JsNum.fin b) (JsNum.fin 0))))))
          (jsMul (jsExp (jsSub (jsMul (JsNum.fin c) (logsq2 (JsNum.fin 0) (JsNum.fin b)))
              (jsMul (JsNum.fin 0) (jsAtan2 (JsNum.fin b) (JsNum.fin 0)))))
            (jsSin (jsAdd (jsMul (JsNum.fin 0) (logsq2 (JsNum.fin 0) (JsNum.fin b)))
              (jsMul (JsNum.fin c) (jsAtan2 (JsNum.fin b) (JsNum.fin 0)))))) := by
  simp only [powC, parseC_fin, hrem, JsNum.fin.injEq, hb, if_false, and_false, false_and,
    eq_self_iff_true, if_true, and_true, true_and]

/-- The general-path value for a pure imaginary base: magnitude to the
power of the exponent times cosine and sine of the rotated angle. -/
lemma powC_imag_general (b : ℝ) (hb : b ≠ 0) (q k : ℤ) (hq : q < 0)
    (hk1 : 1 ≤ k) (hk4 : k < 4) :
    powC ⟨JsNum.fin 0, JsNum.fin b⟩ ⟨JsNum.fin ((4 * q + k : ℤ) : ℝ), JsNum.fin 0⟩ =
      .ok ⟨JsNum.fin (|b| ^ (4 * q + k : ℤ) *
              Real.cos (((4 * q + k : ℤ) : ℝ) * atan2R b 0)),
           JsNum.fin (|b| ^ (4 * q + k : ℤ) *
              Real.sin (((4 * q + k : ℤ) : ℝ) * atan2R b 0))⟩ := by
  have hrem := jsRem_int q k (by omega) hk4
  rw [if_neg (by push_neg; exact ⟨by omega, by omega⟩)] at hrem
  have hkr1 : (1:ℝ) ≤ (k:ℝ) := by exact_mod_cast hk1
  have hkr4 : (k:ℝ) < 4 := by exact_mod_cast hk4
  rw [powC_imag_eval b hb _ _ hrem,
    if_neg (by intro hx; linarith), if_neg (by intro hx; linarith),
    if_neg (by intro hx; linarith), if_neg (by intro hx; linarith)]
  rw [logsq2_zero_left hb]
  simp only [JsNum.jsAtan2_fin_fin, JsNum.jsMul_fin_fin, JsNum.jsSub_fin_fin,
    JsNum.jsAdd_fin_fin, JsNum.jsExp_fin, JsNum.jsCos_fin, JsNum.jsSin_fin]
  simp only [zero_mul, sub_zero, zero_add]
  rw [mul_comm (((4 * q + k : ℤ) : ℝ)) (Real.log |b|),
    ← Real.rpow_def_of_pos (abs_pos.mpr hb), Real.rpow_intCast]
  rw [mkComplex_fin_fin]

/-- C4: for a nonzero pure imaginary base and a real exponent holding the
integer n, pow returns the closed form indexed by n modulo 4:
(im^n, 0), (0, im^n), (-im^n, 0), (0, -im^n). -/
theorem claim_C4_pow_imag (b : ℝ) (hb : b ≠ 0) (n : ℤ) :
    powC ⟨JsNum.fin 0, JsNum.fin b⟩ ⟨JsNum.fin ((n : ℤ) : ℝ), JsNum.fin 0⟩ =
      .ok (c4form b n) := by
  obtain ⟨q, k, hk0, hk4, rfl⟩ : ∃ q k : ℤ, 0 ≤ k ∧ k < 4 ∧ n = 4 * q + k :=
    ⟨n / 4, n % 4, Int.emod_nonneg n (by norm_num), Int.emod_lt_of_pos n (by norm_num),
      (Int.ediv_add_emod n 4).symm⟩
  have hmod : (4 * q + k) % 4 = k := by omega
  by_cases hqk : 0 ≤ q ∨ k = 0
  · -- the switch matches case k directly
    have hrem := jsRem_int q k hk0 hk4
    rw [if_pos hqk] at hrem
    rw [powC_imag_eval b hb _ _ hrem]
    interval_cases k
    · rw [if_pos (by norm_num), jsPow_fin_int hb, mkComplex_fin_fin]
      simp [c4form, hmod]
    · rw [if_neg (by norm_num), if_pos (by norm_num), jsPow_fin_int hb, mkComplex_fin_fin]
      simp [c4form, hmod]
    · rw [if_neg (by norm_num), if_neg (by norm_num), if_pos (by norm_num),
        jsPow_fin_int hb]
      simp only [JsNum.jsNeg_fin]
      rw [mkComplex_fin_fin]
      simp [c4form, hmod]
    · rw [if_neg (by norm_num), if_neg (by norm_num), if_neg (by norm_num),
        if_pos (by norm_num), jsPow_fin_int hb]
      simp only [JsNum.jsNeg_fin]
      rw [mkComplex_fin_fin]
      simp [c4form, hmod]
  · -- negative exponent not a multiple of 4: the general formula
    push_neg at hqk
    obtain ⟨hq', hk'⟩ := hqk
    have hq : q < 0 := by omega
    have hk1 : 1 ≤ k := by omega
    rw [powC_imag_general b hb q k hq hk1 hk4]
    rcases lt_or_gt_of_ne hb with hbneg | hbpos
    · -- negative imaginary part: atan2 gives -pi/2
      rw [atan2R_neg_imag hbneg]
      simp only [mul_neg, Real.cos_neg, Real.sin_neg]
      rw [cos_int_mul_half_pi q k, sin_int_mul_half_pi q k]
      have hzp : b ^ (4 * q + k) = (-1:ℝ) ^ k * |b| ^ (4 * q + k) := by
        rw [zpow_of_neg_base hbneg, neg_one_zpow_four_mul_add]
      interval_cases k
      · simp only [Int.cast_one, one_mul, Real.cos_pi_div_two, Real.sin_pi_div_two]
        simp [c4form, hmod, hzp]
      · rw [show (((2:ℤ)):ℝ) = (2:ℝ) by norm_num,
          show ((2:ℝ)) * (Real.pi / 2) = Real.pi by ring]
        simp only [Real.cos_pi, Real.sin_pi]
        simp [c4form, hmod, hzp]
        all_goals norm_num
      · rw [show (((3:ℤ)):ℝ) = (3:ℝ) by norm_num, cos_three_half_pi, sin_three_half_pi]
        simp [c4form, hmod, hzp]
        all_goals norm_num
    · -- positive imaginary part: atan2 gives pi/2
      rw [atan2R_pos_imag hbpos]
      rw [cos_int_mul_half_pi q k, sin_int_mul_half_pi q k]
      have habs : |b| = b := abs_of_pos hbpos
      interval_cases k
      · simp only [Int.cast_one, one_mul, Real.cos_pi_div_two, Real.sin_pi_div_two]
        simp [c4form, hmod, habs]
      · rw [show (((2:ℤ)):ℝ) = (2:ℝ) by norm_num,
          show ((2:ℝ)) * (Real.pi / 2) = Real.pi by ring]
        simp only [Real.cos_pi, Real.sin_pi]
        simp [c4form, hmod, habs]
      · rw [show (((3:ℤ)):ℝ) = (3:ℝ) by norm_num, cos_three_half_pi, sin_three_half_pi]
        simp [c4form, hmod, habs]

/-- Witness for C4: i-like base 5i with exponent 2 (remainder 2: the form
(-im^2, 0)), i.e. (5i)^2 = -25. -/
theorem claim_C4_pow_imag_witness :
    powC ⟨JsNum.fin 0, JsNum.fin 5⟩ ⟨JsNum.fin ((2 : ℤ) : ℝ), JsNum.fin 0⟩ =
      .ok (c4form 5 2) :=
  claim_C4_pow_imag 5 (by norm_num) 2

/-! ### Claim C5: pow against mul on the quadrant cases -/

/-- Evaluation of pow on the general path: both base components nonzero,
real exponent. -/
lemma powC_general_eval (a b : ℝ) (ha : ¬(a = 0)) (hb : ¬(b = 0)) (c : ℝ) :
    powC ⟨JsNum.fin a, JsNum.fin b⟩ ⟨JsNum.fin c, JsNum.fin 0⟩ =
      mkComplex
        (jsMul (jsExp (jsSub (jsMul (JsNum.fin c) (logsq2 (JsNum.fin a) (JsNum.fin b)))
            (jsMul (JsNum.fin 0) (jsAtan2 (JsNum.fin b) (JsNum.fin a)))))
          (jsCos (jsAdd (jsMul (JsNum.fin 0) (logsq2 (JsNum.fin a) (JsNum.fin b)))
            (jsMul (JsNum.fin c) (jsAtan2 (JsNum.fin b) (JsNum.fin a))))))
        (jsMul (jsExp (jsSub (jsMul (JsNum.fin c) (logsq2 (JsNum.fin a) (JsNum.fin b)))
            (jsMul (JsNum.fin 0) (jsAtan2 (JsNum.fin b) (JsNum.fin a)))))
          (jsSin (jsAdd (jsMul (JsNum.fin 0) (logsq2 (JsNum.fin a) (JsNum.fin b)))
            (jsMul (JsNum.fin c) (jsAtan2 (JsNum.fin b) (JsNum.fin a)))))) := by
  simp only [powC, parseC_fin, JsNum.fin.injEq, ha, hb, if_false, and_false, false_and,
    eq_self_iff_true, if_true, and_true, true_and]

/-- Evaluation of pow on the real fast path: zero imaginary part and a
non-negative real part. -/
lemma powC_real_eval (a c : ℝ) (ha : ¬(a = 0)) (hge : 0 ≤ a) :
    powC ⟨JsNum.fin a, JsNum.fin 0⟩ ⟨JsNum.fin c, JsNum.fin 0⟩ =
      mkComplex (jsPow (JsNum.fin a) (JsNum.fin c)) (JsNum.fin 0) := by
  simp only [powC, parseC_fin, JsNum.fin.injEq, ha, hge, if_false, and_false, false_and,
    eq_self_iff_true, if_true, and_true, true_and, JsNum.jsLeP_fin_fin]

/-- logsq2 on the direct branch: both parts nonzero with magnitudes below
1000. -/
lemma logsq2_small {a b : ℝ} (ha : a ≠ 0) (hb : b ≠ 0) (h1 : |a| < 1000) (h2 : |b| < 1000) :
    logsq2 (JsNum.fin a) (JsNum.fin b) = JsNum.fin (Real.log (a * a + b * b) * 0.5) := by
  unfold logsq2
  rw [if_neg (by simp [ha]), if_neg (by simp [hb]),
    if_pos (by simpa using And.intro h1 h2)]
  simp only [JsNum.jsMul_fin_fin, JsNum.jsAdd_fin_fin]
  rw [JsNum.jsLog_fin_pos (add_pos_of_pos_of_nonneg (mul_self_pos.mpr ha) (mul_self_nonneg b))]
  simp only [JsNum.jsMul_fin_fin]

lemma equalsC_fin_true (p q r s : ℝ) (h1 : |r - p| ≤ 1e-16) (h2 : |s - q| ≤ 1e-16) :
    equalsC ⟨JsNum.fin p, JsNum.fin q⟩ ⟨JsNum.fin r, JsNum.fin s⟩ = .ok true := by
  rw [equalsC_eval _ _ (by simp)]
  have hc : jsLeP (jsAbs (jsSub (JsNum.fin r) (JsNum.fin p))) EPSILON ∧
      jsLeP (jsAbs (jsSub (JsNum.fin s) (JsNum.fin q))) EPSILON := by
    constructor <;> simp only [JsNum.jsSub_fin_fin, JsNum.jsAbs_fin, EPSILON,
      JsNum.jsLeP_fin_fin] <;> assumption
  rw [if_pos hc]

lemma abs_mk_34 : Complex.abs ⟨3, 4⟩ = 5 := by
  rw [Complex.abs_apply, Complex.normSq_apply]
  have h : Real.sqrt ((3:ℝ) * 3 + 4 * 4) = 5 := by
    rw [show (3:ℝ) * 3 + 4 * 4 = 25 by norm_num, show (25:ℝ) = 5 ^ 2 by norm_num,
      Real.sqrt_sq (by norm_num)]
  exact h

lemma abs_mk_m34 : Complex.abs ⟨-3, 4⟩ = 5 := by
  rw [Complex.abs_apply, Complex.normSq_apply]
  have h : Real.sqrt ((-3:ℝ) * (-3) + 4 * 4) = 5 := by
    rw [show (-3:ℝ) * (-3) + 4 * 4 = 25 by norm_num, show (25:ℝ) = 5 ^ 2 by norm_num,
      Real.sqrt_sq (by norm_num)]
  exact h

lemma abs_mk_11 : Complex.abs ⟨1, 1⟩ = Real.sqrt 2 := by
  rw [Complex.abs_apply, Complex.normSq_apply]
  have h : Real.sqrt ((1:ℝ) * 1 + 1 * 1) = Real.sqrt 2 := by
    norm_num
  exact h

lemma pow_34 : powC ⟨JsNum.fin 3, JsNum.fin 4⟩ ⟨JsNum.fin 2, JsNum.fin 0⟩ =
    .ok ⟨JsNum.fin (-7), JsNum.fin 24⟩ := by
  rw [powC_general_eval 3 4 (by norm_num) (by norm_num) 2,
    logsq2_small (by norm_num) (by norm_num) (by norm_num) (by norm_num)]
  simp only [JsNum.jsAtan2_fin_fin, JsNum.jsMul_fin_fin, JsNum.jsSub_fin_fin,
    JsNum.jsAdd_fin_fin, JsNum.jsExp_fin, JsNum.jsCos_fin, JsNum.jsSin_fin]
  simp only [zero_mul, sub_zero, zero_add]
  rw [show (3:ℝ) * 3 + 4 * 4 = 25 by norm_num,
    show (2:ℝ) * (Real.log 25 * 0.5) = Real.log 25 by ring,
    Real.exp_log (by norm_num : (0:ℝ) < 25),
    Real.cos_two_mul, Real.sin_two_mul,
    cos_atan2R (by norm_num), sin_atan2R, abs_mk_34, mkComplex_fin_fin]
  simp only [Except.ok.injEq, Cx.mk.injEq, JsNum.fin.injEq]
  constructor <;> norm_num

lemma pow_m34 : powC ⟨JsNum.fin (-3), JsNum.fin 4⟩ ⟨JsNum.fin 2, JsNum.fin 0⟩ =
    .ok ⟨JsNum.fin (-7), JsNum.fin (-24)⟩ := by
  rw [powC_general_eval (-3) 4 (by norm_num) (by norm_num) 2,
    logsq2_small (by norm_num) (by norm_num) (by norm_num) (by norm_num)]
  simp only [JsNum.jsAtan2_fin_fin, JsNum.jsMul_fin_fin, JsNum.jsSub_fin_fin,
    JsNum.jsAdd_fin_fin, JsNum.jsExp_fin, JsNum.jsCos_fin, JsNum.jsSin_fin]
  simp only [zero_mul, sub_zero, zero_add]
  rw [show (-3:ℝ) * (-3) + 4 * 4 = 25 by norm_num,
    show (2:ℝ) * (Real.log 25 * 0.5) = Real.log 25 by ring,
    Real.exp_log (by norm_num : (0:ℝ) < 25),
    Real.cos_two_mul, Real.sin_two_mul,
    cos_atan2R (by norm_num), sin_atan2R, abs_mk_m34, mkComplex_fin_fin]
  simp only [Except.ok.injEq, Cx.mk.injEq, JsNum.fin.injEq]
  constructor <;> norm_num

lemma pow_11 : powC ⟨JsNum.fin 1, JsNum.fin 1⟩ ⟨JsNum.fin 2, JsNum.fin 0⟩ =
    .ok ⟨JsNum.fin 0, JsNum.fin 2⟩ := by
  rw [powC_general_eval 1 1 (by norm_num) (by norm_num) 2,
    logsq2_small (by norm_num) (by norm_num) (by norm_num) (by norm_num)]
  simp only [JsNum.jsAtan2_fin_fin, JsNum.jsMul_fin_fin, JsNum.jsSub_fin_fin,
    JsNum.jsAdd_fin_fin, JsNum.jsExp_fin, JsNum.jsCos_fin, JsNum.jsSin_fin]
  simp only [zero_mul, sub_zero, zero_add]
  rw [show (1:ℝ) * 1 + 1 * 1 = 2 by norm_num,
    show (2:ℝ) * (Real.log 2 * 0.5) = Real.log 2 by ring,
    Real.exp_log (by norm_num : (0:ℝ) < 2),
    Real.cos_two_mul, Real.sin_two_mul,
    cos_atan2R (by norm_num), sin_atan2R, abs_mk_11, mkComplex_fin_fin]
  simp only [Except.ok.injEq, Cx.mk.injEq, JsNum.fin.injEq]
  have hs : Real.sqrt 2 * Real.sqrt 2 = 2 := Real.mul_self_sqrt (by norm_num)
  have hinv : ((1:ℝ) / Real.sqrt 2) ^ 2 = 1 / 2 := by
    rw [div_pow, one_pow, sq, hs]
  constructor
  · rw [hinv]
    norm_num
  · rw [show (2:ℝ) * (1 / Real.sqrt 2) * (1 / Real.sqrt 2) =
      2 * ((1 / Real.sqrt 2) * (1 / Real.sqrt 2)) by ring,
      show (1 / Real.sqrt 2) * (1 / Real.sqrt 2) = ((1:ℝ) / Real.sqrt 2) ^ 2 by ring, hinv]
    norm_num

lemma jsRem_two_four : jsRem (JsNum.fin 2) (JsNum.fin 4) = JsNum.fin 2 := by
  simp only [jsRem]
  rw [if_neg (by norm_num : ¬(4:ℝ) = 0), jsTrunc_of_nonneg (by norm_num),
    Int.floor_eq_zero_iff.mpr ⟨by norm_num, by norm_num⟩]
  norm_num

lemma rpow_five_two : (5:ℝ) ^ (2:ℝ) = 25 := by
  rw [show (2:ℝ) = ((2:ℕ):ℝ) by norm_num, Real.rpow_natCast]
  norm_num

lemma pow_05 : powC ⟨JsNum.fin 0, JsNum.fin 5⟩ ⟨JsNum.fin 2, JsNum.fin 0⟩ =
    .ok ⟨JsNum.fin (-25), JsNum.fin 0⟩ := by
  rw [powC_imag_eval 5 (by norm_num) 2 2 jsRem_two_four,
    if_neg (by norm_num), if_neg (by norm_num), if_pos rfl]
  simp only [jsPow]
  rw [if_pos (by norm_num : (0:ℝ) < 5), rpow_five_two]
  simp only [JsNum.jsNeg_fin]
  rw [mkComplex_fin_fin]

lemma pow_50 : powC ⟨JsNum.fin 5, JsNum.fin 0⟩ ⟨JsNum.fin 2, JsNum.fin 0⟩ =
    .ok ⟨JsNum.fin 25, JsNum.fin 0⟩ := by
  rw [powC_real_eval 5 2 (by norm_num) (by norm_num)]
  simp only [jsPow]
  rw [if_pos (by norm_num : (0:ℝ) < 5), rpow_five_two, mkComplex_fin_fin]

/-- C5: pow(x, (2,0)) equals x.mul(x) within the equals tolerance for the
four quadrant cases (3,4), (-3,4), (0,5), (5,0), and (1,1)^(2,0) equals
(0,2) within the same tolerance. -/
theorem claim_C5_pow_square :
    (∃ v w : Cx, powC ⟨JsNum.fin 3, JsNum.fin 4⟩ ⟨JsNum.fin 2, JsNum.fin 0⟩ = .ok v ∧
        mulC ⟨JsNum.fin 3, JsNum.fin 4⟩ ⟨JsNum.fin 3, JsNum.fin 4⟩ = .ok w ∧
        equalsC v w = .ok true)
    ∧ (∃ v w : Cx, powC ⟨JsNum.fin (-3), JsNum.fin 4⟩ ⟨JsNum.fin 2, JsNum.fin 0⟩ = .ok v ∧
        mulC ⟨JsNum.fin (-3), JsNum.fin 4⟩ ⟨JsNum.fin (-3), JsNum.fin 4⟩ = .ok w ∧
        equalsC v w = .ok true)
    ∧ (∃ v w : Cx, powC ⟨JsNum.fin 0, JsNum.fin 5⟩ ⟨JsNum.fin 2, JsNum.fin 0⟩ = .ok v ∧
        mulC ⟨JsNum.fin 0, JsNum.fin 5⟩ ⟨JsNum.fin 0, JsNum.fin 5⟩ = .ok w ∧
        equalsC v w = .ok true)
    ∧ (∃ v w : Cx, powC ⟨JsNum.fin 5, JsNum.fin 0⟩ ⟨JsNum.fin 2, JsNum.fin 0⟩ = .ok v ∧
        mulC ⟨JsNum.fin 5, JsNum.fin 0⟩ ⟨JsNum.fin 5, JsNum.fin 0⟩ = .ok w ∧
        equalsC v w = .ok true)
    ∧ (∃ v : Cx, powC ⟨JsNum.fin 1, JsNum.fin 1⟩ ⟨JsNum.fin 2, JsNum.fin 0⟩ = .ok v ∧
        equalsC v ⟨JsNum.fin 0, JsNum.fin 2⟩ = .ok true) := by
  refine ⟨⟨_, _, pow_34, mulC_fin 3 4 3 4, ?_⟩,
    ⟨_, _, pow_m34, mulC_fin (-3) 4 (-3) 4, ?_⟩,
    ⟨_, _, pow_05, mulC_fin 0 5 0 5, ?_⟩,
    ⟨_, _, pow_50, mulC_fin 5 0 5 0, ?_⟩,
    ⟨_, pow_11, ?_⟩⟩
  · exact equalsC_fin_true _ _ _ _ (by norm_num) (by norm_num)
  · exact equalsC_fin_true _ _ _ _ (by norm_num) (by norm_num)
  · exact equalsC_fin_true _ _ _ _ (by norm_num) (by norm_num)
  · exact equalsC_fin_true _ _ _ _ (by norm_num) (by norm_num)
  · exact equalsC_fin_true _ _ _ _ (by norm_num) (by norm_num)

end
